import Mathlib

/-!
# dioGoRestAPI: the in-memory user store and its five HTTP handlers

A shallow embedding of `main.go`.  The package-level variable `users`
(a `map[string]User`) becomes an explicit `Store` that every handler takes and
returns; a handler's effect on the `http.ResponseWriter` becomes the `Response`
it returns.  The mutex is held around every map access and is not modelled: the
handlers are taken one call at a time.

Library code the handlers call is modelled from its documented behaviour:
`strconv.ParseUint` and `strconv.Itoa`, the `encoding/json` encoder for a
`User`, `http.Error`, and the path and method matching of gorilla/mux.  The
JSON decoder is not modelled: a request carries the outcome of decoding its
body, a `User` or the decoder's error.

Target platform: `uint` and `int` are 64 bits wide (amd64, arm64).  Unsigned
machine integers are natural numbers, and every conversion reduces modulo
`2 ^ 64` explicitly.

The definitions come first, the theorems after them.
-/

namespace DioGoRestAPI

/-! ## Data model -/

/-- The `User` struct of `main.go`.  `ID` is a Go `uint`: a value below `2 ^ 64`. -/
structure User where
  ID : Nat
  Username : String
  Password : String
  Name : String
  Address : String
deriving DecidableEq, Repr

/-- The width of `uint` and `int` on the modelled platform. -/
def UintSize : Nat := 64

/-- A `User` value as Go can hold it: the `ID` fits a `uint`. -/
def User.WellFormed (u : User) : Prop := u.ID < 2 ^ UintSize

instance (u : User) : Decidable u.WellFormed := by
  unfold User.WellFormed; infer_instance

/-- The variable `users`: a finite map from key strings to records. -/
abbrev Store := Finmap (fun _ : String => User)

/-! ## The `strconv` functions the handlers call -/

/-- The two failures of `strconv.ParseUint`. -/
inductive NumError where
  | ErrSyntax
  | ErrRange
deriving DecidableEq, Repr

deriving instance DecidableEq for Except

/-- The largest `uint64`. -/
def maxUint64 : Nat := 2 ^ 64 - 1

/-- The value of a byte as a digit in `strconv.ParseUint`: `0` to `9`, then
the letters of either case from 10 on (`lower(c)` is `c | 0x20`); `none` for
any other byte, the underscore included, which is only read in base 0.  A
character outside ASCII is a run of bytes from `0x80` up, none of them a
digit. -/
def digitOf (c : Char) : Option Nat :=
  if 48 ≤ c.toNat ∧ c.toNat ≤ 57 then some (c.toNat - 48)
  else if 97 ≤ (c.toNat ||| 32) ∧ (c.toNat ||| 32) ≤ 122 then some ((c.toNat ||| 32) - 97 + 10)
  else none

/-- The loop of `strconv.ParseUint` over the bytes still to read, with `n` the
`uint64` accumulated so far.  A byte that is no digit of the base is a syntax
error; the three range tests are the ones of the Go loop, on wrapping 64-bit
arithmetic, with `cutoff = maxUint64 / base + 1`. -/
def parseUintLoop (base maxVal : Nat) : List Char → Nat → Except NumError Nat
  | [], n => .ok n
  | c :: cs, n =>
    match digitOf c with
    | none => .error .ErrSyntax
    | some d =>
      if d ≥ base then .error .ErrSyntax
      else if n ≥ maxUint64 / base + 1 then .error .ErrRange
      else
        let nb := (n * base) % 2 ^ 64
        let n1 := (nb + d) % 2 ^ 64
        if n1 < nb ∨ n1 > maxVal then .error .ErrRange
        else parseUintLoop base maxVal cs n1

/-- The call `strconv.ParseUint(s, base, bitSize)` for `2 ≤ base ≤ 36` and
`0 < bitSize ≤ 64` (the handlers pass 10 and 32): the empty string is a syntax
error, no sign is accepted, and a value above `2 ^ bitSize - 1` is a range
error. -/
def ParseUint (s : String) (base bitSize : Nat) : Except NumError Nat :=
  if s.data = [] then .error .ErrSyntax
  else parseUintLoop base (2 ^ bitSize - 1) s.data 0

/-- The decimal digit `d` as a character. -/
def digitChar (d : Nat) : Char := Char.ofNat (48 + d)

/-- The decimal digits of `n`, most significant first, in front of `acc`. -/
def formatDigits : Nat → Nat → List Char → List Char
  | 0, _, acc => acc
  | fuel + 1, n, acc =>
    if n < 10 then digitChar n :: acc
    else formatDigits fuel (n / 10) (digitChar (n % 10) :: acc)

/-- The decimal text of a natural number (`strconv.FormatUint(n, 10)`). -/
def FormatUint (n : Nat) : String := ⟨formatDigits (n + 1) n []⟩

/-- The function `strconv.Itoa`: the decimal text of an `int`, with a minus
sign when it is negative. -/
def Itoa (i : Int) : String :=
  match i with
  | Int.ofNat n => FormatUint n
  | Int.negSucc n => "-" ++ FormatUint (n + 1)

/-- The conversion `uint(x)` of a `uint64`. -/
def toUint (x : Nat) : Nat := x % 2 ^ UintSize

/-- The conversion `int(x)` of a `uint`: the same 64 bits read as two's
complement. -/
def toInt (x : Nat) : Int :=
  if x % 2 ^ UintSize < 2 ^ (UintSize - 1) then (x % 2 ^ UintSize : Nat)
  else ((x % 2 ^ UintSize : Nat) : Int) - 2 ^ UintSize

/-- The map key of an id: `strconv.Itoa(int(id))`. -/
def keyOf (id : Nat) : String := Itoa (toInt id)

/-! ## The JSON encoding of the response -/

/-- A hexadecimal digit, lower case. -/
def hexChar (d : Nat) : Char :=
  if d < 10 then Char.ofNat (48 + d) else Char.ofNat (87 + d)

/-- The double quote. -/
def quoteChar : Char := Char.ofNat 34

/-- The backslash. -/
def backslashChar : Char := Char.ofNat 92

/-- One character of a string as `encoding/json` writes it with HTML escaping
on, which is how `json.NewEncoder` starts out (Go 1.22 and later, where
backspace and form feed have their short forms). -/
def escapeChar (c : Char) : List Char :=
  if c.toNat = 34 then [backslashChar, quoteChar]
  else if c.toNat = 92 then [backslashChar, backslashChar]
  else if c.toNat = 10 then [backslashChar, 'n']
  else if c.toNat = 13 then [backslashChar, 'r']
  else if c.toNat = 9 then [backslashChar, 't']
  else if c.toNat = 8 then [backslashChar, 'b']
  else if c.toNat = 12 then [backslashChar, 'f']
  else if c.toNat < 32 ∨ c.toNat = 60 ∨ c.toNat = 62 ∨ c.toNat = 38 then
    [backslashChar, 'u', '0', '0', hexChar (c.toNat / 16), hexChar (c.toNat % 16)]
  else if c.toNat = 8232 then [backslashChar, 'u', '2', '0', '2', '8']
  else if c.toNat = 8233 then [backslashChar, 'u', '2', '0', '2', '9']
  else [c]

/-- A Go string as a JSON string. -/
def encodeString (s : String) : String :=
  ⟨quoteChar :: (s.data.flatMap escapeChar) ++ [quoteChar]⟩

/-- The JSON object of a `User`: the five fields in declaration order under
their `json` tags, none omitted. -/
def marshalUser (u : User) : String :=
  "\x7b\"id\":" ++ FormatUint u.ID ++
  ",\"username\":" ++ encodeString u.Username ++
  ",\"password\":" ++ encodeString u.Password ++
  ",\"name\":" ++ encodeString u.Name ++
  ",\"address\":" ++ encodeString u.Address ++ "\x7d"

/-- What `json.NewEncoder(w).Encode(user)` writes: the object and a newline.
Encoding a `User` has no failing case, so the handlers' branch for an encoding
error is never taken. -/
def Encode (u : User) : String := marshalUser u ++ "\n"

/-- What `json.NewEncoder(w).Encode(userList)` writes for a non-nil slice. -/
def EncodeList (us : List User) : String :=
  "[" ++ ",".intercalate (us.map marshalUser) ++ "]\n"

/-! ## Requests and responses -/

/-- What a handler reads of the `*http.Request`: the route variables
(`mux.Vars(r)`) and the outcome of `json.NewDecoder(r.Body).Decode(&user)`,
either the decoded record or the decoder's error text. -/
structure Request where
  vars : List (String × String)
  body : Except String User

/-- Indexing a Go `map[string]string`: the empty string for a missing key. -/
def mapIndex (m : List (String × String)) (k : String) : String :=
  (m.lookup k).getD ""

/-- What a handler leaves in the `http.ResponseWriter`: the status code, the
`Content-Type` header if one was set, and the bytes of the body. -/
structure Response where
  status : Nat
  contentType : Option String
  body : String
deriving DecidableEq, Repr

def StatusOK : Nat := 200
def StatusCreated : Nat := 201
def StatusNoContent : Nat := 204
def StatusBadRequest : Nat := 400
def StatusNotFound : Nat := 404
def StatusConflict : Nat := 409

/-- The call `http.Error(w, msg, code)`: a plain-text body, the message and a
newline. -/
def httpError (msg : String) (code : Nat) : Response :=
  ⟨code, some "text/plain; charset=utf-8", msg ++ "\n"⟩

/-! ## The handlers -/

/-- The handler `GetUserById`. -/
def GetUserById (users : Store) (r : Request) : Store × Response :=
  let idStr := mapIndex r.vars "id"
  match ParseUint idStr 10 32 with
  | .error _ =>
    (users, httpError "ID inválido, deve ser um número inteiro positivo" StatusBadRequest)
  | .ok id =>
    match users.lookup (Itoa (toInt (toUint id))) with
    | none => (users, httpError "Usuário não encontrado" StatusNotFound)
    | some user => (users, ⟨StatusOK, some "application/json", Encode user⟩)

/-- The handler `CreateUser`.  After the status line it encodes the record
twice: the source calls `Encode(user)` on line 121 and again on line 123. -/
def CreateUser (users : Store) (r : Request) : Store × Response :=
  match r.body with
  | .error e => (users, httpError e StatusBadRequest)
  | .ok user =>
    if user.ID = 0 then
      (users, httpError "ID tem que ser maior que 0" StatusBadRequest)
    else if (users.lookup (Itoa (toInt user.ID))).isSome then
      (users, httpError "Usuário com este ID já existe" StatusConflict)
    else
      (users.insert (Itoa (toInt user.ID)) user,
        ⟨StatusCreated, some "application/json", Encode user ++ Encode user⟩)

/-- The handler `EditUser`. -/
def EditUser (users : Store) (r : Request) : Store × Response :=
  let idStr := mapIndex r.vars "id"
  match ParseUint idStr 10 32 with
  | .error _ =>
    (users, httpError "ID inválido, deve ser um número inteiro positivo" StatusBadRequest)
  | .ok id =>
    match r.body with
    | .error _ => (users, httpError "JSON inválido" StatusBadRequest)
    | .ok user =>
      if user.ID ≠ 0 ∧ user.ID ≠ toUint id then
        (users, httpError "ID no corpo da requisição não corresponde ao ID na URL"
          StatusBadRequest)
      else if user.Username = "" then
        (users, httpError "Username é obrigatório" StatusBadRequest)
      else if user.Password = "" then
        (users, httpError "Password é obrigatório" StatusBadRequest)
      else if user.Name = "" then
        (users, httpError "Name é obrigatório" StatusBadRequest)
      else if (users.lookup (Itoa (toInt (toUint id)))).isNone then
        (users, httpError "Usuário não encontrado" StatusNotFound)
      else
        let user := { user with ID := toUint id }
        (users.insert (Itoa (toInt (toUint id))) user,
          ⟨StatusOK, some "application/json", Encode user⟩)

/-- The loop of `ListUsers`: `userList` starts empty and every entry that
`range users` yields has its record appended. -/
def collectUsers (iter : List (Σ _ : String, User)) : List User :=
  iter.foldl (fun userList e => userList ++ [e.2]) []

/-- The handler `ListUsers`.  Go leaves the order of `range users` open; `iter`
is the order in which this call meets the entries of the map. -/
def ListUsers (users : Store) (iter : List (Σ _ : String, User)) (_r : Request) :
    Store × Response :=
  (users, ⟨StatusOK, some "application/json", EncodeList (collectUsers iter)⟩)

/-- The handler `DeleteUser`. -/
def DeleteUser (users : Store) (r : Request) : Store × Response :=
  let idStr := mapIndex r.vars "id"
  match ParseUint idStr 10 32 with
  | .error _ =>
    (users, httpError "ID inválido, deve ser um número inteiro positivo" StatusBadRequest)
  | .ok id =>
    if (users.lookup (Itoa (toInt (toUint id)))).isNone then
      (users, httpError "Usuário não encontrado" StatusNotFound)
    else
      (users.erase (Itoa (toInt (toUint id))), ⟨StatusNoContent, none, ""⟩)

/-! ## The routes registered in `main` -/

/-- The handlers `main` registers; `Hello` is the anonymous function of the
first route. -/
inductive HandlerName where
  | Hello
  | CreateUser
  | GetUserById
  | ListUsers
  | DeleteUser
  | EditUser
deriving DecidableEq, Repr

/-- A piece of a gorilla/mux path template: literal text, or a variable
`{name}`, which stands for one non-empty run of characters other than the
slash (character 47). -/
inductive Part where
  | lit (text : String)
  | var (name : String)
deriving DecidableEq, Repr

/-- A registered route: `r.HandleFunc(path, handler).Methods(methods...)`. -/
structure Route where
  path : List Part
  methods : List String
  handler : HandlerName

/-- The six routes of `main`, in the order of registration. -/
def routes : List Route :=
  [ ⟨[.lit "/api/v1/"], ["GET", "POST", "PUT", "DELETE"], .Hello⟩,
    ⟨[.lit "/api/v1/users"], ["POST"], .CreateUser⟩,
    ⟨[.lit "/api/v1/users/", .var "id"], ["GET"], .GetUserById⟩,
    ⟨[.lit "/api/v1/users"], ["GET"], .ListUsers⟩,
    ⟨[.lit "/api/v1/users/", .var "id"], ["DELETE"], .DeleteUser⟩,
    ⟨[.lit "/api/v1/users"], ["PUT"], .EditUser⟩ ]

/-- Reading the literal `lit` off the front of `cs`: what is left of `cs`. -/
def stripLit : List Char → List Char → Option (List Char)
  | [], cs => some cs
  | _ :: _, [] => none
  | l :: ls, c :: cs => if l = c then stripLit ls cs else none

/-- Matching a whole path against a template; the result holds the value of
every variable of the template, and of nothing else. -/
def matchPath : List Part → List Char → Option (List (String × String))
  | [], cs => if cs = [] then some [] else none
  | .lit text :: ps, cs =>
    match stripLit text.data cs with
    | none => none
    | some rest => matchPath ps rest
  | .var name :: ps, cs =>
    let seg := cs.takeWhile (fun c => c.toNat ≠ 47)
    if seg = [] then none
    else (matchPath ps (cs.dropWhile (fun c => c.toNat ≠ 47))).map
      (fun vars => (name, String.mk seg) :: vars)

/-- A route matches a request when its method is one of the route's and the
path fits the template; the match carries the route variables. -/
def Route.Match (rt : Route) (method path : String) : Option (List (String × String)) :=
  if method ∈ rt.methods then matchPath rt.path path.data else none

/-- The segments of a path after its leading slash: the runs between
slashes, empty runs included. -/
def splitSlash : List Char → List (List Char)
  | [] => [[]]
  | c :: cs =>
    match splitSlash cs with
    | [] => [[c]]
    | seg :: segs => if c.toNat = 47 then [] :: seg :: segs else (c :: seg) :: segs

/-- No segment is `.` or `..`, and only the last one may be empty (a trailing
slash). -/
def cleanSegments : List (List Char) → Bool
  | [] => true
  | [seg] => decide (seg ≠ ['.'] ∧ seg ≠ ['.', '.'])
  | seg :: rest =>
    decide (seg ≠ [] ∧ seg ≠ ['.'] ∧ seg ≠ ['.', '.']) && cleanSegments rest

/-- The test `cleanPath(path) == path` of the router's `ServeHTTP`: the path
starts with a slash and `path.Clean` finds nothing to remove, the trailing
slash being put back.  A path that fails the test is answered with a 301
redirect and no handler runs. -/
def isCleanPath (path : String) : Bool :=
  match path.data with
  | [] => false
  | c :: rest => decide (c.toNat = 47) && cleanSegments (splitSlash rest)

/-- The router's choice for a request: for a clean path, the first route that
matches, with the variables `mux.Vars` will return inside the handler.  `none`
when the router answers on its own: 301 for a path that is not clean, 404 or
405 when no route matches. -/
def routerMatch (method path : String) : Option (HandlerName × List (String × String)) :=
  if isCleanPath path then
    routes.findSome? (fun rt => (rt.Match method path).map (fun vars => (rt.handler, vars)))
  else none

/-! ## Sequences of calls -/

/-- One call of a handler, with what the call reads. -/
inductive Call where
  | CreateUser (r : Request)
  | GetUserById (r : Request)
  | ListUsers (iter : List (Σ _ : String, User)) (r : Request)
  | EditUser (r : Request)
  | DeleteUser (r : Request)

/-- The request of a call. -/
def Call.request : Call → Request
  | .CreateUser r => r
  | .GetUserById r => r
  | .ListUsers _ r => r
  | .EditUser r => r
  | .DeleteUser r => r

/-- Running a call on a store. -/
def Call.run : Call → Store → Store × Response
  | .CreateUser r, users => DioGoRestAPI.CreateUser users r
  | .GetUserById r, users => DioGoRestAPI.GetUserById users r
  | .ListUsers iter r, users => DioGoRestAPI.ListUsers users iter r
  | .EditUser r, users => DioGoRestAPI.EditUser users r
  | .DeleteUser r, users => DioGoRestAPI.DeleteUser users r

/-- A request as Go can hold it: a decoded body is a well-formed `User`. -/
def Request.WellFormed (r : Request) : Prop :=
  ∀ u, r.body = .ok u → u.WellFormed

/-- The stores the program can be in: the empty map of the start, and what any
handler call leaves, failed calls included. -/
inductive Reachable : Store → Prop where
  | init : Reachable ∅
  | step {users : Store} (c : Call) :
      Reachable users → c.request.WellFormed → Reachable (c.run users).1

/-- The store after a list of calls, the first call first. -/
def runCalls (cs : List Call) (users : Store) : Store :=
  cs.foldl (fun s c => (c.run s).1) users

/-! ## Auxiliary notions for the proofs -/

/-- The number a list of decimal digits denotes, continuing from `m`. -/
def digitsVal : List Char → Nat → Nat
  | [], m => m
  | c :: cs, m => digitsVal cs (m * 10 + (c.toNat - 48))

/-- Every character is a decimal digit. -/
def AllDigits (l : List Char) : Prop := ∀ c ∈ l, 48 ≤ c.toNat ∧ c.toNat ≤ 57

/-- Key and id agree on every entry, no entry has id zero, and every stored id
fits a `uint`. -/
def StoreInv (users : Store) : Prop :=
  ∀ k u, users.lookup k = some u → k = keyOf u.ID ∧ u.ID ≠ 0 ∧ u.ID < 2 ^ 64

/-! ## Reading a response body

What a JSON client reads off a body that `EncodeList` wrote.  These functions
are not in `main.go`; they say what list a response body denotes. -/

/-- The value of a lower-case hexadecimal digit. -/
def hexVal (c : Char) : Option Nat :=
  if 48 ≤ c.toNat ∧ c.toNat ≤ 57 then some (c.toNat - 48)
  else if 97 ≤ c.toNat ∧ c.toNat ≤ 102 then some (c.toNat - 87)
  else none

/-- The character a short escape stands for, by the letter after the
backslash. -/
def unescapeChar (e : Char) : Option Char :=
  if e.toNat = 34 then some (Char.ofNat 34)
  else if e.toNat = 92 then some (Char.ofNat 92)
  else if e.toNat = 110 then some (Char.ofNat 10)
  else if e.toNat = 114 then some (Char.ofNat 13)
  else if e.toNat = 116 then some (Char.ofNat 9)
  else if e.toNat = 98 then some (Char.ofNat 8)
  else if e.toNat = 102 then some (Char.ofNat 12)
  else none

/-- Reading the inside of a JSON string, just after the opening quote: the
characters up to the closing quote with the escapes undone, and what follows
the closing quote. -/
def readChars : List Char → Option (List Char × List Char)
  | [] => none
  | c :: cs =>
    if c.toNat = 34 then some ([], cs)
    else if c.toNat = 92 then
      match cs with
      | [] => none
      | e :: rest =>
        if e.toNat = 117 then
          match rest with
          | h1 :: h2 :: h3 :: h4 :: rest4 =>
            match hexVal h1, hexVal h2, hexVal h3, hexVal h4 with
            | some a, some b, some x, some y =>
              (readChars rest4).map
                (fun p => (Char.ofNat (((a * 16 + b) * 16 + x) * 16 + y) :: p.1, p.2))
            | _, _, _, _ => none
          | _ => none
        else
          match unescapeChar e with
          | none => none
          | some ch => (readChars rest).map (fun p => (ch :: p.1, p.2))
    else (readChars cs).map (fun p => (c :: p.1, p.2))

/-- Reading a JSON string: the opening quote, then `readChars`. -/
def readString : List Char → Option (String × List Char)
  | [] => none
  | q :: cs =>
    if q.toNat = 34 then (readChars cs).map (fun p => (String.mk p.1, p.2)) else none

/-- Reading a decimal number: the longest run of digits, which must not be
empty. -/
def readNat (cs : List Char) : Option (Nat × List Char) :=
  let ds := cs.takeWhile (fun c => 48 ≤ c.toNat ∧ c.toNat ≤ 57)
  if ds = [] then none
  else some (digitsVal ds 0, cs.dropWhile (fun c => 48 ≤ c.toNat ∧ c.toNat ≤ 57))

/-- Reading one JSON object as `marshalUser` lays it out. -/
def readUser (cs : List Char) : Option (User × List Char) :=
  match stripLit "\x7b\"id\":".data cs with
  | none => none
  | some c1 =>
  match readNat c1 with
  | none => none
  | some (id, c2) =>
  match stripLit ",\"username\":".data c2 with
  | none => none
  | some c3 =>
  match readString c3 with
  | none => none
  | some (username, c4) =>
  match stripLit ",\"password\":".data c4 with
  | none => none
  | some c5 =>
  match readString c5 with
  | none => none
  | some (password, c6) =>
  match stripLit ",\"name\":".data c6 with
  | none => none
  | some c7 =>
  match readString c7 with
  | none => none
  | some (name, c8) =>
  match stripLit ",\"address\":".data c8 with
  | none => none
  | some c9 =>
  match readString c9 with
  | none => none
  | some (address, c10) =>
  match stripLit "\x7d".data c10 with
  | none => none
  | some rest => some (⟨id, username, password, name, address⟩, rest)

/-- Reading the objects of a non-empty JSON array up to the closing bracket,
at most `fuel` of them. -/
def readUsers : Nat → List Char → Option (List User × List Char)
  | 0, _ => none
  | fuel + 1, cs =>
    match readUser cs with
    | none => none
    | some (u, rest) =>
      match rest with
      | [] => none
      | c :: rest1 =>
        if c.toNat = 93 then some ([u], rest1)
        else if c.toNat = 44 then (readUsers fuel rest1).map (fun p => (u :: p.1, p.2))
        else none

/-- Reading a response body as a JSON client does when it expects what
`EncodeList` writes: an array of user objects and a newline. -/
def DecodeList (body : String) : Option (List User) :=
  match body.data with
  | [] => none
  | c :: cs =>
    if c.toNat = 91 then
      match cs with
      | [] => none
      | d :: rest =>
        if d.toNat = 93 then (if rest = [Char.ofNat 10] then some [] else none)
        else
          match readUsers cs.length cs with
          | none => none
          | some (us, rest1) => if rest1 = [Char.ofNat 10] then some us else none
    else none

/-- The text of the objects after the first in a JSON array: each with a comma
in front. -/
def restObjects (vs : List User) : List Char :=
  vs.flatMap (fun v => ',' :: (marshalUser v).data)


/-! ## Sample data -/

/-- The record of the spec's scenario. -/
def alice : User := ⟨1, "a", "p", "A", ""⟩

/-- The update of the spec's scenario: id zero in the body. -/
def aliceUpdate : User := ⟨0, "b", "p2", "B", "X"⟩

/-- A second and a third record. -/
def bob : User := ⟨2, "bob", "pw", "Bob", "Rua 2"⟩

def carol : User := ⟨3, "carol", "pw", "Carol", ""⟩

/-- A record whose id is the first one that does not fit 32 bits. -/
def big : User := ⟨4294967296, "a", "p", "A", ""⟩

/-- A request that creates `u`. -/
def createReq (u : User) : Request := ⟨[], .ok u⟩

/-- A request on the path variable `id`, with no usable body. -/
def idReq (idStr : String) : Request := ⟨[("id", idStr)], .error "EOF"⟩

/-- The store after `alice` was created in the empty store. -/
def storeAlice : Store := (CreateUser ∅ (createReq alice)).1

/-- The store after `big` was created in the empty store. -/
def storeBig : Store := (CreateUser ∅ (createReq big)).1

/-- The store after records 1, 2 and 3 were created in the empty store. -/
def storeThree : Store :=
  runCalls [.CreateUser ⟨[], .ok alice⟩, .CreateUser ⟨[], .ok bob⟩, .CreateUser ⟨[], .ok carol⟩] ∅

/-! ## Facts about the conversions -/

theorem parseUintLoop_le (base maxVal : Nat) : ∀ (cs : List Char) (n v : Nat),
    n ≤ maxVal → parseUintLoop base maxVal cs n = .ok v → v ≤ maxVal := by
  intro cs
  induction cs with
  | nil =>
    intro n v hn h
    simp only [parseUintLoop, Except.ok.injEq] at h
    omega
  | cons c cs ih =>
    intro n v _ h
    simp only [parseUintLoop] at h
    split at h
    · exact absurd h (by simp)
    · split at h
      · exact absurd h (by simp)
      · split at h
        · exact absurd h (by simp)
        · split at h
          · exact absurd h (by simp)
          · exact ih _ v (by omega) h

theorem ParseUint_lt {s : String} {base id : Nat} (h : ParseUint s base 32 = .ok id) :
    id < 2 ^ 32 := by
  unfold ParseUint at h
  split at h
  · exact absurd h (by simp)
  · have := parseUintLoop_le _ _ _ _ _ (Nat.zero_le _) h
    omega

theorem toUint_of_lt {x : Nat} (h : x < 2 ^ 64) : toUint x = x := by
  unfold toUint UintSize
  exact Nat.mod_eq_of_lt h

theorem pathKey_eq {s : String} {id : Nat} (h : ParseUint s 10 32 = .ok id) :
    Itoa (toInt (toUint id)) = keyOf id := by
  have := ParseUint_lt h
  rw [toUint_of_lt (by omega)]
  rfl

/-! ## Decimal text: formatting and reading back -/

theorem digitChar_toNat {d : Nat} (h : d < 10) : (digitChar d).toNat = 48 + d := by
  unfold digitChar
  interval_cases d <;> rfl

theorem formatDigits_append : ∀ (fuel n : Nat) (acc : List Char),
    formatDigits fuel n acc = formatDigits fuel n [] ++ acc := by
  intro fuel
  induction fuel with
  | zero => intro n acc; simp [formatDigits]
  | succ f ih =>
    intro n acc
    simp only [formatDigits]
    split
    · simp
    · rw [ih (n / 10) (digitChar (n % 10) :: acc), ih (n / 10) [digitChar (n % 10)]]
      simp

theorem formatDigits_step (fuel n : Nat) (h : 10 ≤ n) :
    formatDigits (fuel + 1) n [] = formatDigits fuel (n / 10) [] ++ [digitChar (n % 10)] := by
  simp only [formatDigits]
  rw [if_neg (by omega), formatDigits_append]

theorem digitsVal_append (l : List Char) (c : Char) : ∀ m : Nat,
    digitsVal (l ++ [c]) m = digitsVal l m * 10 + (c.toNat - 48) := by
  induction l with
  | nil => intro m; rfl
  | cons x xs ih => intro m; exact ih _

theorem formatDigits_spec : ∀ (fuel n : Nat), n < fuel →
    digitsVal (formatDigits fuel n []) 0 = n ∧ AllDigits (formatDigits fuel n []) ∧
      formatDigits fuel n [] ≠ [] := by
  intro fuel
  induction fuel with
  | zero => intro n h; omega
  | succ f ih =>
    intro n h
    by_cases hn : n < 10
    · have hd := digitChar_toNat hn
      simp only [formatDigits, if_pos hn]
      refine ⟨?_, ?_, by simp⟩
      · simp only [digitsVal, hd]; omega
      · intro c hc
        simp only [List.mem_singleton] at hc
        subst hc
        omega
    · have hd := digitChar_toNat (Nat.mod_lt n (by omega : 0 < 10))
      obtain ⟨hv, hall, hne⟩ := ih (n / 10) (by omega)
      rw [formatDigits_step f n (by omega)]
      refine ⟨?_, ?_, by simp⟩
      · rw [digitsVal_append, hv, hd]; omega
      · intro c hc
        rcases List.mem_append.mp hc with h | h
        · exact hall c h
        · simp only [List.mem_singleton] at h
          subst h
          omega

theorem digitsVal_ge (l : List Char) : ∀ m : Nat, m ≤ digitsVal l m := by
  induction l with
  | nil => intro m; exact Nat.le_refl _
  | cons c cs ih =>
    intro m
    have := ih (m * 10 + (c.toNat - 48))
    simp only [digitsVal]
    omega

theorem digitOf_of_digit {c : Char} (h : 48 ≤ c.toNat ∧ c.toNat ≤ 57) :
    digitOf c = some (c.toNat - 48) := by
  unfold digitOf
  rw [if_pos h]

theorem parseUintLoop_digits (maxVal : Nat) (hmax : maxVal < 2 ^ 64) :
    ∀ (l : List Char) (m : Nat), AllDigits l → digitsVal l m ≤ maxVal →
      parseUintLoop 10 maxVal l m = .ok (digitsVal l m) := by
  intro l
  induction l with
  | nil => intro m _ _; rfl
  | cons c cs ih =>
    intro m hall hle
    have hc := hall c (List.mem_cons_self _ _)
    have hcs : AllDigits cs := fun x hx => hall x (List.mem_cons_of_mem _ hx)
    have hge := digitsVal_ge cs (m * 10 + (c.toNat - 48))
    simp only [digitsVal] at hle
    have hbase : ¬ c.toNat - 48 ≥ 10 := by omega
    have hcut : ¬ m ≥ maxUint64 / 10 + 1 := by
      unfold maxUint64
      omega
    have h10 : (m * 10) % 2 ^ 64 = m * 10 := Nat.mod_eq_of_lt (by omega)
    have h1 : (m * 10 + (c.toNat - 48)) % 2 ^ 64 = m * 10 + (c.toNat - 48) :=
      Nat.mod_eq_of_lt (by omega)
    simp only [parseUintLoop, digitsVal, digitOf_of_digit hc]
    rw [if_neg hbase, if_neg hcut, h10, h1, if_neg (by omega)]
    exact ih _ hcs hle

/-- Reading back the decimal text of a number below `2 ^ bitSize` gives the number. -/
theorem ParseUint_FormatUint (n bitSize : Nat) (hb : bitSize ≤ 64) (hn : n < 2 ^ bitSize) :
    ParseUint (FormatUint n) 10 bitSize = .ok n := by
  obtain ⟨hv, hall, hne⟩ := formatDigits_spec (n + 1) n (by omega)
  have hpow : 2 ^ bitSize ≤ 2 ^ 64 := Nat.pow_le_pow_right (by omega) hb
  unfold ParseUint FormatUint
  rw [if_neg hne, parseUintLoop_digits _ (by omega) _ 0 hall (by rw [hv]; omega), hv]

theorem FormatUint_injective {a b : Nat} (h : FormatUint a = FormatUint b) : a = b := by
  have ha := (formatDigits_spec (a + 1) a (by omega)).1
  have hb := (formatDigits_spec (b + 1) b (by omega)).1
  have hd : formatDigits (a + 1) a [] = formatDigits (b + 1) b [] := by
    have := congrArg String.data h
    simpa [FormatUint] using this
  rw [hd, hb] at ha
  exact ha.symm

theorem FormatUint_head (n : Nat) : ∃ c cs, (FormatUint n).data = c :: cs ∧ 48 ≤ c.toNat := by
  obtain ⟨_, hall, hne⟩ := formatDigits_spec (n + 1) n (by omega)
  unfold FormatUint
  cases hl : formatDigits (n + 1) n [] with
  | nil => exact absurd hl hne
  | cons c cs =>
    refine ⟨c, cs, rfl, ?_⟩
    exact (hall c (by rw [hl]; exact List.mem_cons_self _ _)).1

theorem Itoa_injective {i j : Int} (h : Itoa i = Itoa j) : i = j := by
  cases i with
  | ofNat a =>
    cases j with
    | ofNat b =>
      simp only [Itoa] at h
      rw [FormatUint_injective h]
    | negSucc b =>
      exfalso
      simp only [Itoa] at h
      obtain ⟨c, cs, hc, h48⟩ := FormatUint_head a
      have := congrArg String.data h
      rw [hc, String.data_append] at this
      simp only [List.singleton_append, List.cons.injEq] at this
      have h45 : c.toNat = 45 := by rw [this.1]; rfl
      omega
  | negSucc a =>
    cases j with
    | ofNat b =>
      exfalso
      simp only [Itoa] at h
      obtain ⟨c, cs, hc, h48⟩ := FormatUint_head b
      have := congrArg String.data h
      rw [hc, String.data_append] at this
      simp only [List.singleton_append, List.cons.injEq] at this
      have h45 : c.toNat = 45 := by rw [← this.1]; rfl
      omega
    | negSucc b =>
      simp only [Itoa] at h
      have := congrArg String.data h
      rw [String.data_append, String.data_append] at this
      have h2 : FormatUint (a + 1) = FormatUint (b + 1) := by
        apply String.ext
        exact List.append_cancel_left this
      have h3 : a = b := by
        have := FormatUint_injective h2
        omega
      rw [h3]

theorem toInt_injective {a b : Nat} (ha : a < 2 ^ 64) (hb : b < 2 ^ 64)
    (h : toInt a = toInt b) : a = b := by
  unfold toInt UintSize at h
  rw [Nat.mod_eq_of_lt ha, Nat.mod_eq_of_lt hb] at h
  split at h <;> split at h <;> omega

/-- Distinct ids have distinct map keys. -/
theorem keyOf_injective {a b : Nat} (ha : a < 2 ^ 64) (hb : b < 2 ^ 64)
    (h : keyOf a = keyOf b) : a = b :=
  toInt_injective ha hb (Itoa_injective h)

/-! ## The invariant of the store -/

theorem storeInv_empty : StoreInv ∅ := by
  intro k u h
  rw [Finmap.lookup_empty] at h
  exact absurd h (by simp)

theorem getUserById_store (users : Store) (r : Request) : (GetUserById users r).1 = users := by
  simp only [GetUserById]
  split
  · rfl
  · split <;> rfl

theorem storeInv_insert {users : Store} (hinv : StoreInv users) (u : User)
    (h0 : u.ID ≠ 0) (hlt : u.ID < 2 ^ 64) : StoreInv (users.insert (keyOf u.ID) u) := by
  intro k v hk
  by_cases hkey : k = keyOf u.ID
  · subst hkey
    rw [Finmap.lookup_insert] at hk
    cases hk
    exact ⟨rfl, h0, hlt⟩
  · rw [Finmap.lookup_insert_of_ne _ hkey] at hk
    exact hinv k v hk

theorem storeInv_erase {users : Store} (hinv : StoreInv users) (key : String) :
    StoreInv (users.erase key) := by
  intro k v hk
  by_cases hkey : k = key
  · subst hkey
    rw [Finmap.lookup_erase] at hk
    exact absurd hk (by simp)
  · rw [Finmap.lookup_erase_ne hkey] at hk
    exact hinv k v hk

theorem storeInv_no_zero_key {users : Store} (hinv : StoreInv users) : keyOf 0 ∉ users := by
  intro hmem
  obtain ⟨u, hu⟩ := Finmap.mem_iff.mp hmem
  obtain ⟨hk, h0, hlt⟩ := hinv _ u hu
  exact h0 (keyOf_injective (by omega) hlt hk).symm

theorem storeInv_createUser {users : Store} (hinv : StoreInv users) (r : Request)
    (hwf : r.WellFormed) : StoreInv (CreateUser users r).1 := by
  obtain ⟨vars, body⟩ := r
  cases body with
  | error e => exact hinv
  | ok user =>
    have hlt : user.ID < 2 ^ 64 := hwf user rfl
    simp only [CreateUser]
    split
    · exact hinv
    · rename_i h0
      split
      · exact hinv
      · exact storeInv_insert hinv user h0 hlt

theorem storeInv_editUser {users : Store} (hinv : StoreInv users) (r : Request) :
    StoreInv (EditUser users r).1 := by
  obtain ⟨vars, body⟩ := r
  simp only [EditUser]
  split
  · exact hinv
  · rename_i id hparse
    cases body with
    | error e => exact hinv
    | ok user =>
      have hid : toUint id = id := toUint_of_lt (by have := ParseUint_lt hparse; omega)
      have hlt : id < 2 ^ 64 := by have := ParseUint_lt hparse; omega
      simp only []
      split_ifs with h1 h2 h3 h4 h5
      · exact hinv
      · exact hinv
      · exact hinv
      · exact hinv
      · exact hinv
      · have hmem : keyOf id ∈ users := by
          rw [Option.isNone_iff_eq_none, Finmap.lookup_eq_none, hid] at h5
          exact not_not.mp h5
        have hne : id ≠ 0 := by
          rintro rfl
          exact storeInv_no_zero_key hinv hmem
        rw [hid]
        exact storeInv_insert hinv { user with ID := id } hne hlt

theorem storeInv_deleteUser {users : Store} (hinv : StoreInv users) (r : Request) :
    StoreInv (DeleteUser users r).1 := by
  simp only [DeleteUser]
  split
  · exact hinv
  · split
    · exact hinv
    · exact storeInv_erase hinv _

theorem storeInv_run {users : Store} (hinv : StoreInv users) (c : Call)
    (hwf : c.request.WellFormed) : StoreInv (c.run users).1 := by
  cases c with
  | CreateUser r => exact storeInv_createUser hinv r hwf
  | GetUserById r =>
    simp only [Call.run]
    rw [getUserById_store]
    exact hinv
  | ListUsers iter r => exact hinv
  | EditUser r => exact storeInv_editUser hinv r
  | DeleteUser r => exact storeInv_deleteUser hinv r

theorem storeInv_of_reachable {users : Store} (h : Reachable users) : StoreInv users := by
  induction h with
  | init => exact storeInv_empty
  | step c _ hwf ih => exact storeInv_run ih c hwf

theorem reachable_storeAlice : Reachable storeAlice :=
  Reachable.step (.CreateUser (createReq alice)) .init (by intro u h; cases h; decide)

/-- Claim C7: key and id agree in every reachable store.  In a store reached
from the empty one by any calls of `CreateUser`, `GetUserById`, `ListUsers`,
`EditUser` and `DeleteUser`, failing calls included, a record `u` stored under
key `k` has `k = strconv.Itoa(int(u.ID))`, the key the code computes from the
id, and `u.ID` is not zero. -/
theorem reachable_key_id_consistent (users : Store) (hreach : Reachable users)
    (k : String) (u : User) (hk : users.lookup k = some u) :
    k = keyOf u.ID ∧ u.ID ≠ 0 :=
  ⟨(storeInv_of_reachable hreach k u hk).1, (storeInv_of_reachable hreach k u hk).2.1⟩

/-- Claim C7 at the store holding `alice` under key 1. -/
theorem reachable_key_id_consistent_witness : "1" = keyOf alice.ID ∧ alice.ID ≠ 0 :=
  reachable_key_id_consistent storeAlice reachable_storeAlice "1" alice (by decide)

/-- Claim C2: `CreateUser` never overwrites.  In every reachable store, a
body whose id already has its key in the store is answered with 409 Conflict
and the store after the call is the store before it, so the record stored at
that key stays as it was. -/
theorem createUser_never_overwrites (users : Store) (hreach : Reachable users)
    (vars : List (String × String)) (r : User) (hkey : keyOf r.ID ∈ users) :
    (CreateUser users ⟨vars, .ok r⟩).2.status = 409 ∧
    (CreateUser users ⟨vars, .ok r⟩).1 = users := by
  have hinv := storeInv_of_reachable hreach
  have h0 : r.ID ≠ 0 := by
    intro h
    rw [h] at hkey
    exact storeInv_no_zero_key hinv hkey
  have hsome : (Finmap.lookup (Itoa (toInt r.ID)) users).isSome = true := by
    rw [Finmap.lookup_isSome]
    exact hkey
  simp only [CreateUser]
  rw [if_neg h0, if_pos hsome]
  exact ⟨rfl, rfl⟩

/-- Claim C2 at the store holding `alice`, creating `alice` again. -/
theorem createUser_never_overwrites_witness :
    (CreateUser storeAlice ⟨[], .ok alice⟩).2.status = 409 ∧
    (CreateUser storeAlice ⟨[], .ok alice⟩).1 = storeAlice :=
  createUser_never_overwrites storeAlice reachable_storeAlice [] alice (by decide)

/-! ## The router -/

theorem matchPath_lit_vars (text : String) (cs : List Char) (vars : List (String × String))
    (h : matchPath [.lit text] cs = some vars) : vars = [] := by
  simp only [matchPath] at h
  split at h
  · exact absurd h (by simp)
  · split at h
    · simpa using h.symm
    · exact absurd h (by simp)

/-- Claim C10: `EditUser` as registered never gets past id parsing.  Its route
`/api/v1/users` has no variable, so whenever the router picks `EditUser` the
route variables hold no `id`, the handler reads the empty string, parsing it is
a syntax error, and for every store and body the answer is 400 Bad Request with
the store unchanged. -/
theorem editUser_as_registered_always_rejects (method path : String)
    (vars : List (String × String))
    (hroute : routerMatch method path = some (.EditUser, vars)) :
    mapIndex vars "id" = "" ∧
    ParseUint (mapIndex vars "id") 10 32 = .error .ErrSyntax ∧
    ∀ (users : Store) (body : Except String User),
      (EditUser users ⟨vars, body⟩).2.status = 400 ∧
      (EditUser users ⟨vars, body⟩).1 = users := by
  have hvars : vars = [] := by
    unfold routerMatch at hroute
    have hfind : routes.findSome?
        (fun rt => (rt.Match method path).map (fun vars => (rt.handler, vars))) =
          some (.EditUser, vars) := by
      split at hroute
      · exact hroute
      · exact absurd hroute (by simp)
    obtain ⟨rt, hmem, hrt⟩ := List.exists_of_findSome?_eq_some hfind
    simp only [routes, List.mem_cons, List.mem_singleton, List.not_mem_nil, or_false] at hmem
    rcases hmem with rfl | rfl | rfl | rfl | rfl | rfl <;>
      simp only [Option.map_eq_some', Prod.mk.injEq, Route.Match] at hrt <;>
      obtain ⟨v, hv, hh, rfl⟩ := hrt
    · exact absurd hh (by decide)
    · exact absurd hh (by decide)
    · exact absurd hh (by decide)
    · exact absurd hh (by decide)
    · exact absurd hh (by decide)
    · split at hv
      · exact matchPath_lit_vars _ _ _ hv
      · exact absurd hv (by simp)
  subst hvars
  refine ⟨rfl, by decide, fun users body => ?_⟩
  have hp : ParseUint (mapIndex [] "id") 10 32 = .error .ErrSyntax := by decide
  constructor <;> simp [EditUser, hp, httpError, StatusBadRequest]

/-- Claim C10 at the request `PUT /api/v1/users`, which the router gives to
`EditUser`. -/
theorem editUser_as_registered_always_rejects_witness :
    mapIndex [] "id" = "" ∧
    ParseUint (mapIndex [] "id") 10 32 = .error .ErrSyntax ∧
    ∀ (users : Store) (body : Except String User),
      (EditUser users ⟨[], body⟩).2.status = 400 ∧
      (EditUser users ⟨[], body⟩).1 = users :=
  editUser_as_registered_always_rejects "PUT" "/api/v1/users" [] (by decide)

/-! ## The handlers, one call at a time -/

/-- Claim C8: `CreateUser` rejects id zero.  For every store and every body
with `ID = 0`, whatever the other four fields, the answer is 400 Bad Request
and the store is unchanged. -/
theorem createUser_rejects_id_zero (users : Store) (vars : List (String × String)) (r : User)
    (hid : r.ID = 0) :
    (CreateUser users ⟨vars, .ok r⟩).2.status = 400 ∧
    (CreateUser users ⟨vars, .ok r⟩).1 = users := by
  simp [CreateUser, hid, httpError, StatusBadRequest]

/-- Claim C8 at the empty store. -/
theorem createUser_rejects_id_zero_witness :
    (CreateUser ∅ ⟨[], .ok ⟨0, "a", "p", "A", "x"⟩⟩).2.status = 400 ∧
    (CreateUser ∅ ⟨[], .ok ⟨0, "a", "p", "A", "x"⟩⟩).1 = ∅ :=
  createUser_rejects_id_zero ∅ [] ⟨0, "a", "p", "A", "x"⟩ rfl

/-- Claim C4: the validation of `EditUser` comes before the lookup and changes
nothing.  For a path id that parses, any store (holding the id or not) and any
body `r`: if `r.ID` is neither zero nor the path id, or the username, the
password or the name is empty, the answer is 400 Bad Request and the store is
unchanged.  The address plays no part: for any body, changing only its address
leaves the status of the answer the same. -/
theorem editUser_validation_atomic (users : Store) (vars : List (String × String))
    (id : Nat) (r : User)
    (hparse : ParseUint (mapIndex vars "id") 10 32 = .ok id)
    (hbad : (r.ID ≠ 0 ∧ r.ID ≠ id) ∨ r.Username = "" ∨ r.Password = "" ∨ r.Name = "") :
    (EditUser users ⟨vars, .ok r⟩).2.status = 400 ∧
    (EditUser users ⟨vars, .ok r⟩).1 = users ∧
    ∀ (r' : User) (address : String),
      (EditUser users ⟨vars, .ok { r' with Address := address }⟩).2.status =
        (EditUser users ⟨vars, .ok r'⟩).2.status := by
  have hlt := ParseUint_lt hparse
  have hu : toUint id = id := toUint_of_lt (by omega)
  refine ⟨?_, ?_, ?_⟩
  · simp only [EditUser, hparse, hu]
    split_ifs <;> first
      | rfl
      | (exfalso; rcases hbad with h | h | h | h <;> simp_all)
  · simp only [EditUser, hparse, hu]
    split_ifs <;> first
      | rfl
      | (exfalso; rcases hbad with h | h | h | h <;> simp_all)
  · intro r' a
    simp only [EditUser, hparse]
    split_ifs <;> rfl

/-- Claim C4 at the empty store, path id 1 and a body with id 2. -/
theorem editUser_validation_atomic_witness :
    (EditUser ∅ ⟨[("id", "1")], .ok bob⟩).2.status = 400 ∧
    (EditUser ∅ ⟨[("id", "1")], .ok bob⟩).1 = ∅ :=
  ⟨(editUser_validation_atomic ∅ [("id", "1")] 1 bob (by decide)
      (Or.inl ⟨by decide, by decide⟩)).1,
    (editUser_validation_atomic ∅ [("id", "1")] 1 bob (by decide)
      (Or.inl ⟨by decide, by decide⟩)).2.1⟩

theorem collectUsers_loop (iter : List (Σ _ : String, User)) : ∀ (userList : List User),
    iter.foldl (fun userList e => userList ++ [e.2]) userList =
      userList ++ iter.map (fun e => e.2) := by
  induction iter with
  | nil => intro userList; simp
  | cons e es ih => intro userList; simp [ih]

theorem collectUsers_eq_map (iter : List (Σ _ : String, User)) :
    collectUsers iter = iter.map (fun e => e.2) := by
  unfold collectUsers
  rw [collectUsers_loop]
  rfl

/-- For a path id that parses (an id below `2 ^ 32`) and is in the store,
`DeleteUser` answers 204, removes the entry at the id and leaves every other
key as it was; a following `GetUserById` of the same id answers 404, and a
second `DeleteUser` answers 404 and leaves the store as it is. -/
theorem deleteUser_of_parsed_id (users : Store) (vars vars' : List (String × String))
    (body body' : Except String User) (id : Nat)
    (hparse : ParseUint (mapIndex vars "id") 10 32 = .ok id)
    (hparse' : ParseUint (mapIndex vars' "id") 10 32 = .ok id)
    (hmem : keyOf id ∈ users) :
    (DeleteUser users ⟨vars, body⟩).2.status = 204 ∧
    (DeleteUser users ⟨vars, body⟩).1.lookup (keyOf id) = none ∧
    (∀ k, k ≠ keyOf id → (DeleteUser users ⟨vars, body⟩).1.lookup k = users.lookup k) ∧
    (GetUserById (DeleteUser users ⟨vars, body⟩).1 ⟨vars', body'⟩).2.status = 404 ∧
    (DeleteUser (DeleteUser users ⟨vars, body⟩).1 ⟨vars', body'⟩).2.status = 404 ∧
    (DeleteUser (DeleteUser users ⟨vars, body⟩).1 ⟨vars', body'⟩).1 =
      (DeleteUser users ⟨vars, body⟩).1 := by
  have hsome : ¬ (Finmap.lookup (Itoa (toInt (toUint id))) users).isNone = true := by
    rw [pathKey_eq hparse, Option.isNone_iff_eq_none, Finmap.lookup_eq_none]
    exact fun h => h hmem
  have hout : DeleteUser users ⟨vars, body⟩ =
      (users.erase (keyOf id), ⟨StatusNoContent, none, ""⟩) := by
    simp only [DeleteUser, hparse]
    rw [if_neg hsome, pathKey_eq hparse]
  have hgone : Finmap.lookup (Itoa (toInt (toUint id))) (users.erase (keyOf id)) = none := by
    rw [pathKey_eq hparse]
    exact Finmap.lookup_erase _ _
  rw [hout]
  refine ⟨rfl, Finmap.lookup_erase _ _, fun k hne => Finmap.lookup_erase_ne hne, ?_, ?_, ?_⟩
  · simp only [GetUserById, hparse', hgone]
    rfl
  · simp only [DeleteUser, hparse', hgone]
    rfl
  · simp only [DeleteUser, hparse', hgone]
    rfl

theorem createUser_fresh (users : Store) (vars : List (String × String)) (r : User)
    (hid : r.ID ≠ 0) (hfresh : keyOf r.ID ∉ users) :
    CreateUser users ⟨vars, .ok r⟩ =
      (users.insert (keyOf r.ID) r,
        ⟨StatusCreated, some "application/json", Encode r ++ Encode r⟩) := by
  have hnone : ¬ (Finmap.lookup (Itoa (toInt r.ID)) users).isSome = true := by
    rw [Finmap.lookup_isSome]
    exact hfresh
  simp only [CreateUser]
  rw [if_neg hid, if_neg hnone]
  rfl

theorem store_after_three_creates (u1 u2 u3 : User)
    (h1 : u1.ID = 1) (h2 : u2.ID = 2) (h3 : u3.ID = 3) :
    (runCalls [.CreateUser ⟨[], .ok u1⟩, .CreateUser ⟨[], .ok u2⟩, .CreateUser ⟨[], .ok u3⟩]
      ∅).entries = ⟨"3", u3⟩ ::ₘ ⟨"2", u2⟩ ::ₘ ⟨"1", u1⟩ ::ₘ 0 := by
  have k1 : keyOf u1.ID = "1" := by rw [h1]; decide
  have k2 : keyOf u2.ID = "2" := by rw [h2]; decide
  have k3 : keyOf u3.ID = "3" := by rw [h3]; decide
  have f1 : keyOf u1.ID ∉ (∅ : Store) := Finmap.not_mem_empty
  have f2 : keyOf u2.ID ∉ Finmap.insert (keyOf u1.ID) u1 (∅ : Store) := by
    rw [Finmap.mem_insert, k1, k2]
    rintro (h | h)
    · exact absurd h (by decide)
    · exact Finmap.not_mem_empty h
  have f3 : keyOf u3.ID ∉
      Finmap.insert (keyOf u2.ID) u2 (Finmap.insert (keyOf u1.ID) u1 (∅ : Store)) := by
    rw [Finmap.mem_insert, Finmap.mem_insert, k1, k2, k3]
    rintro (h | h | h)
    · exact absurd h (by decide)
    · exact absurd h (by decide)
    · exact Finmap.not_mem_empty h
  simp only [runCalls, List.foldl, Call.run]
  rw [createUser_fresh _ _ u1 (by omega) f1, createUser_fresh _ _ u2 (by omega) f2,
    createUser_fresh _ _ u3 (by omega) f3]
  rw [Finmap.insert_entries_of_neg f3, Finmap.insert_entries_of_neg f2,
    Finmap.insert_entries_of_neg f1, k1, k2, k3]
  rfl

/-! ## Reading back what the encoder writes -/

theorem char_eq_of_toNat {c : Char} {n : Nat} (h : c.toNat = n) : c = Char.ofNat n := by
  rw [← h, Char.ofNat_toNat]

theorem readChars_short (e ch : Char) (rest : List Char) (he : e.toNat ≠ 117)
    (hch : unescapeChar e = some ch) :
    readChars (backslashChar :: e :: rest) =
      (readChars rest).map (fun p => (ch :: p.1, p.2)) := by
  have e1 : ¬ backslashChar.toNat = 34 := by decide
  have e2 : backslashChar.toNat = 92 := by decide
  rw [readChars.eq_def]
  simp only [if_neg e1, if_pos e2, if_neg he, hch]

theorem readChars_unicode (h1 h2 h3 h4 : Char) (a b x y : Nat) (rest : List Char)
    (ha : hexVal h1 = some a) (hb : hexVal h2 = some b) (hx : hexVal h3 = some x)
    (hy : hexVal h4 = some y) :
    readChars (backslashChar :: 'u' :: h1 :: h2 :: h3 :: h4 :: rest) =
      (readChars rest).map
        (fun p => (Char.ofNat (((a * 16 + b) * 16 + x) * 16 + y) :: p.1, p.2)) := by
  have e1 : ¬ backslashChar.toNat = 34 := by decide
  have e2 : backslashChar.toNat = 92 := by decide
  have e3 : 'u'.toNat = 117 := by decide
  rw [readChars.eq_def]
  simp only [if_neg e1, if_pos e2, if_pos e3, ha, hb, hx, hy]

theorem readChars_raw (c : Char) (rest : List Char) (h1 : c.toNat ≠ 34) (h2 : c.toNat ≠ 92) :
    readChars (c :: rest) = (readChars rest).map (fun p => (c :: p.1, p.2)) := by
  rw [readChars.eq_def]
  simp only [if_neg h1, if_neg h2]

theorem hexVal_hexChar {k : Nat} (h : k < 16) : hexVal (hexChar k) = some k := by
  interval_cases k <;> decide

theorem escapeChar_short {c : Char} {n : Nat} (e : Char) (rest : List Char)
    (hc : c.toNat = n) (he : e.toNat ≠ 117) (hch : unescapeChar e = some (Char.ofNat n)) :
    readChars ([backslashChar, e] ++ rest) =
      (readChars rest).map (fun p => (c :: p.1, p.2)) := by
  rw [char_eq_of_toNat hc]
  exact readChars_short e _ rest he hch

theorem readChars_escapeChar (c : Char) (rest : List Char) :
    readChars (escapeChar c ++ rest) = (readChars rest).map (fun p => (c :: p.1, p.2)) := by
  unfold escapeChar
  by_cases h1 : c.toNat = 34
  · rw [if_pos h1]
    exact escapeChar_short _ rest h1 (by decide) (by decide)
  rw [if_neg h1]
  by_cases h2 : c.toNat = 92
  · rw [if_pos h2]
    exact escapeChar_short _ rest h2 (by decide) (by decide)
  rw [if_neg h2]
  by_cases h3 : c.toNat = 10
  · rw [if_pos h3]
    exact escapeChar_short _ rest h3 (by decide) (by decide)
  rw [if_neg h3]
  by_cases h4 : c.toNat = 13
  · rw [if_pos h4]
    exact escapeChar_short _ rest h4 (by decide) (by decide)
  rw [if_neg h4]
  by_cases h5 : c.toNat = 9
  · rw [if_pos h5]
    exact escapeChar_short _ rest h5 (by decide) (by decide)
  rw [if_neg h5]
  by_cases h6 : c.toNat = 8
  · rw [if_pos h6]
    exact escapeChar_short _ rest h6 (by decide) (by decide)
  rw [if_neg h6]
  by_cases h7 : c.toNat = 12
  · rw [if_pos h7]
    exact escapeChar_short _ rest h7 (by decide) (by decide)
  rw [if_neg h7]
  by_cases h8 : c.toNat < 32 ∨ c.toNat = 60 ∨ c.toNat = 62 ∨ c.toNat = 38
  · rw [if_pos h8]
    have hlt : c.toNat < 256 := by omega
    have h0 : hexVal '0' = some 0 := by decide
    rw [show [backslashChar, 'u', '0', '0', hexChar (c.toNat / 16), hexChar (c.toNat % 16)] ++ rest
        = backslashChar :: 'u' :: '0' :: '0' :: hexChar (c.toNat / 16) ::
          hexChar (c.toNat % 16) :: rest from rfl]
    rw [readChars_unicode _ _ _ _ 0 0 (c.toNat / 16) (c.toNat % 16) rest h0 h0
      (hexVal_hexChar (by omega)) (hexVal_hexChar (by omega))]
    have hval : ((0 * 16 + 0) * 16 + c.toNat / 16) * 16 + c.toNat % 16 = c.toNat := by omega
    rw [hval, Char.ofNat_toNat]
  rw [if_neg h8]
  by_cases h9 : c.toNat = 8232
  · rw [if_pos h9, char_eq_of_toNat h9]
    exact readChars_unicode _ _ _ _ 2 0 2 8 rest (by decide) (by decide) (by decide) (by decide)
  rw [if_neg h9]
  by_cases h10 : c.toNat = 8233
  · rw [if_pos h10, char_eq_of_toNat h10]
    exact readChars_unicode _ _ _ _ 2 0 2 9 rest (by decide) (by decide) (by decide) (by decide)
  rw [if_neg h10]
  exact readChars_raw c rest h1 h2

theorem readChars_escaped (l rest : List Char) :
    readChars (l.flatMap escapeChar ++ quoteChar :: rest) = some (l, rest) := by
  induction l with
  | nil =>
    rw [List.flatMap_nil, List.nil_append, readChars.eq_def]
    simp only [if_pos (show quoteChar.toNat = 34 by decide)]
  | cons c l ih =>
    rw [List.flatMap_cons, List.append_assoc, readChars_escapeChar, ih]
    rfl

theorem readString_encodeString (s : String) (rest : List Char) :
    readString ((encodeString s).data ++ rest) = some (s, rest) := by
  unfold encodeString
  simp only [List.cons_append, List.append_assoc, List.singleton_append, readString]
  rw [if_pos (show quoteChar.toNat = 34 by decide), readChars_escaped]
  rfl

theorem stripLit_append (lit rest : List Char) : stripLit lit (lit ++ rest) = some rest := by
  induction lit with
  | nil => cases rest <;> rfl
  | cons l ls ih =>
    rw [List.cons_append, stripLit, if_pos rfl]
    exact ih

theorem span_digits (l : List Char) (c : Char) (rest : List Char) (hall : AllDigits l)
    (hc : ¬ (48 ≤ c.toNat ∧ c.toNat ≤ 57)) :
    (l ++ c :: rest).takeWhile (fun c => 48 ≤ c.toNat ∧ c.toNat ≤ 57) = l ∧
    (l ++ c :: rest).dropWhile (fun c => 48 ≤ c.toNat ∧ c.toNat ≤ 57) = c :: rest := by
  induction l with
  | nil =>
    simp only [List.nil_append, List.takeWhile_cons, List.dropWhile_cons, hc, decide_False]
    exact ⟨rfl, rfl⟩
  | cons d ds ih =>
    have hd := hall d (List.mem_cons_self _ _)
    have hds : AllDigits ds := fun x hx => hall x (List.mem_cons_of_mem _ hx)
    obtain ⟨h1, h2⟩ := ih hds
    simp only [List.cons_append, List.takeWhile_cons, List.dropWhile_cons, hd, and_self,
      decide_True, if_true, h1, h2]

theorem readNat_FormatUint (n : Nat) (c : Char) (rest : List Char)
    (hc : ¬ (48 ≤ c.toNat ∧ c.toNat ≤ 57)) :
    readNat ((FormatUint n).data ++ c :: rest) = some (n, c :: rest) := by
  obtain ⟨hv, hall, hne⟩ := formatDigits_spec (n + 1) n (by omega)
  obtain ⟨h1, h2⟩ := span_digits _ c rest hall hc
  unfold readNat FormatUint
  simp only [h1, h2, if_neg hne, hv]

theorem readNat_FormatUint_lit (n : Nat) (c : Char) (lit rest : List Char)
    (hc : ¬ (48 ≤ c.toNat ∧ c.toNat ≤ 57)) :
    readNat ((FormatUint n).data ++ ((c :: lit) ++ rest)) = some (n, (c :: lit) ++ rest) := by
  rw [List.cons_append]
  exact readNat_FormatUint n c _ hc

theorem readUser_marshalUser (u : User) (rest : List Char) :
    readUser ((marshalUser u).data ++ rest) = some (u, rest) := by
  have hcomma : ¬ (48 ≤ ','.toNat ∧ ','.toNat ≤ 57) := by decide
  unfold readUser marshalUser
  simp only [String.data_append, List.append_assoc]
  rw [stripLit_append]
  simp only []
  rw [readNat_FormatUint_lit _ _ _ _ hcomma]
  simp only []
  rw [stripLit_append]
  simp only []
  rw [readString_encodeString]
  simp only []
  rw [stripLit_append]
  simp only []
  rw [readString_encodeString]
  simp only []
  rw [stripLit_append]
  simp only []
  rw [readString_encodeString]
  simp only []
  rw [stripLit_append]
  simp only []
  rw [readString_encodeString]
  simp only []
  rw [stripLit_append]

theorem intercalate_go_data (l : List String) : ∀ acc : String,
    (String.intercalate.go acc "," l).data = acc.data ++ l.flatMap (fun a => ',' :: a.data) := by
  induction l with
  | nil => intro acc; simp [String.intercalate.go]
  | cons a as ih =>
    intro acc
    rw [String.intercalate.go, ih]
    simp [String.data_append]

theorem EncodeList_cons_data (u : User) (vs : List User) :
    (EncodeList (u :: vs)).data =
      '[' :: ((marshalUser u).data ++ (restObjects vs ++ [']', '\n'])) := by
  unfold EncodeList restObjects
  simp only [List.map_cons, String.intercalate, String.data_append, intercalate_go_data,
    List.flatMap_map]
  simp

theorem restObjects_length (vs : List User) : vs.length ≤ (restObjects vs).length := by
  induction vs with
  | nil => simp [restObjects]
  | cons v vs ih =>
    unfold restObjects at ih ⊢
    simp only [List.flatMap_cons, List.length_append, List.length_cons]
    omega

theorem readUsers_objects : ∀ (vs : List User) (u : User) (fuel : Nat) (rest : List Char),
    vs.length < fuel →
    readUsers fuel ((marshalUser u).data ++ (restObjects vs ++ ']' :: rest)) =
      some (u :: vs, rest) := by
  intro vs
  induction vs with
  | nil =>
    intro u fuel rest hf
    obtain ⟨f, rfl⟩ : ∃ f, fuel = f + 1 := ⟨fuel - 1, by omega⟩
    rw [readUsers, readUser_marshalUser]
    simp only [restObjects, List.flatMap_nil, List.nil_append]
    rw [if_pos (by decide)]
  | cons v vs ih =>
    intro u fuel rest hf
    obtain ⟨f, rfl⟩ : ∃ f, fuel = f + 1 := ⟨fuel - 1, by omega⟩
    have hlen : vs.length < f := by
      simp only [List.length_cons] at hf
      omega
    have hstep : restObjects (v :: vs) ++ ']' :: rest =
        ',' :: ((marshalUser v).data ++ (restObjects vs ++ ']' :: rest)) := by
      simp [restObjects]
    rw [readUsers, readUser_marshalUser, hstep]
    simp only []
    rw [if_neg (by decide), if_pos (by decide), ih v f rest hlen]
    rfl

theorem marshalUser_head (u : User) :
    ∃ t, (marshalUser u).data = Char.ofNat 123 :: t := by
  unfold marshalUser
  simp only [String.data_append, List.append_assoc]
  exact ⟨_, rfl⟩

/-- Reading back what `EncodeList` writes gives the list that was encoded. -/
theorem DecodeList_EncodeList (us : List User) : DecodeList (EncodeList us) = some us := by
  cases us with
  | nil => decide
  | cons u vs =>
    obtain ⟨t, ht⟩ := marshalUser_head u
    have hlen := restObjects_length vs
    unfold DecodeList
    rw [EncodeList_cons_data]
    simp only []
    rw [if_pos (by decide)]
    have hfuel : vs.length <
        ((marshalUser u).data ++ (restObjects vs ++ [']', '\n'])).length := by
      simp only [List.length_append, List.length_cons, List.length_nil]
      omega
    have hread := readUsers_objects vs u _ ['\n'] hfuel
    generalize hcs : (marshalUser u).data ++ (restObjects vs ++ [']', '\n']) = cs at hread ⊢
    rw [ht] at hcs
    cases cs with
    | nil => exact absurd hcs (by simp)
    | cons d rest =>
      have hd : d = Char.ofNat 123 := by
        simp only [List.cons_append, List.cons.injEq] at hcs
        exact hcs.1.symm
      simp only []
      rw [if_neg (by rw [hd]; decide), hread]
      rfl

/-- Claim C6: `ListUsers` returns the whole store and changes nothing.  For
every store, with `iter` the order in which `range users` yields the entries
(each entry once), the store after the call is the store before it, the answer
is 200, and the body of the answer reads as a JSON array of user objects: a
list as long as the store has entries whose records, as a multiset, are the
stored records.  So when the store is what creating records with ids 1, 2 and
3 in the empty store leaves, the list in the body has exactly 3 records and
their id set is 1, 2, 3. -/
theorem listUsers_returns_whole_store (users : Store) (iter : List (Σ _ : String, User))
    (r : Request) (hiter : (iter : Multiset (Σ _ : String, User)) = users.entries) :
    (ListUsers users iter r).1 = users ∧
    (ListUsers users iter r).2.status = 200 ∧
    ∃ userList : List User,
      DecodeList (ListUsers users iter r).2.body = some userList ∧
      userList.length = Multiset.card users.entries ∧
      (userList : Multiset User) = users.entries.map (fun e => e.2) ∧
      ∀ u1 u2 u3 : User, u1.ID = 1 → u2.ID = 2 → u3.ID = 3 →
        users = runCalls
          [.CreateUser ⟨[], .ok u1⟩, .CreateUser ⟨[], .ok u2⟩, .CreateUser ⟨[], .ok u3⟩] ∅ →
        userList.length = 3 ∧ (userList.map User.ID).toFinset = {1, 2, 3} := by
  have hlen : (collectUsers iter).length = Multiset.card users.entries := by
    rw [collectUsers_eq_map, ← hiter]
    simp
  have hms : ((collectUsers iter : List User) : Multiset User) =
      users.entries.map (fun e => e.2) := by
    rw [collectUsers_eq_map, ← hiter]
    rfl
  have hbody : DecodeList (ListUsers users iter r).2.body = some (collectUsers iter) := by
    unfold ListUsers
    exact DecodeList_EncodeList _
  refine ⟨rfl, rfl, collectUsers iter, hbody, hlen, hms, ?_⟩
  intro u1 u2 u3 h1 h2 h3 hs
  have hent := store_after_three_creates u1 u2 u3 h1 h2 h3
  rw [← hs] at hent
  constructor
  · rw [hlen, hent]
    rfl
  · have hids : (((collectUsers iter).map User.ID : List Nat) : Multiset Nat) =
        (users.entries.map (fun e => e.2)).map User.ID := by
      rw [← hms]
      rfl
    rw [hent] at hids
    ext x
    rw [List.mem_toFinset, ← Multiset.mem_coe, hids]
    simp [h1, h2, h3]
    tauto

/-- Claim C6 at the store of three records, met in the order 2, 3, 1: the body
is the array of the three objects in that order, and the list read off it has
3 records with id set 1, 2, 3. -/
theorem listUsers_returns_whole_store_witness :
    (ListUsers storeThree [⟨"2", bob⟩, ⟨"3", carol⟩, ⟨"1", alice⟩] (idReq "")).2.body =
      "[\x7b\"id\":2,\"username\":\"bob\",\"password\":\"pw\",\"name\":\"Bob\",\"address\":\"Rua 2\"\x7d," ++
      "\x7b\"id\":3,\"username\":\"carol\",\"password\":\"pw\",\"name\":\"Carol\",\"address\":\"\"\x7d," ++
      "\x7b\"id\":1,\"username\":\"a\",\"password\":\"p\",\"name\":\"A\",\"address\":\"\"\x7d]\n" ∧
    ∃ userList : List User,
      DecodeList (ListUsers storeThree [⟨"2", bob⟩, ⟨"3", carol⟩, ⟨"1", alice⟩]
        (idReq "")).2.body = some userList ∧
      userList.length = 3 ∧ (userList.map User.ID).toFinset = {1, 2, 3} := by
  obtain ⟨userList, hdec, _, _, hthree⟩ :=
    (listUsers_returns_whole_store storeThree [⟨"2", bob⟩, ⟨"3", carol⟩, ⟨"1", alice⟩]
      (idReq "") (by decide)).2.2
  exact ⟨rfl, userList, hdec, hthree alice bob carol rfl rfl rfl rfl⟩

/-! ## Where the 32-bit parse and the 64-bit id part ways -/

/-- Below `2 ^ 32` creating and then getting is a round trip: for a body `r`
with `0 < r.ID < 2 ^ 32` whose key is not in the store, `CreateUser` answers 201
and a following `GetUserById` on the decimal text of the id answers 200 with
the encoding of `r`, the record stored. -/
theorem createUser_then_getUserById_below_two_pow_32 (users : Store)
    (vars vars' : List (String × String)) (body' : Except String User) (r : User)
    (hpos : 0 < r.ID) (hlt : r.ID < 2 ^ 32) (hfresh : keyOf r.ID ∉ users)
    (hpath : mapIndex vars' "id" = FormatUint r.ID) :
    (CreateUser users ⟨vars, .ok r⟩).2.status = 201 ∧
    (CreateUser users ⟨vars, .ok r⟩).1.lookup (keyOf r.ID) = some r ∧
    (GetUserById (CreateUser users ⟨vars, .ok r⟩).1 ⟨vars', body'⟩).2 =
      ⟨200, some "application/json", Encode r⟩ := by
  have hparse : ParseUint (mapIndex vars' "id") 10 32 = .ok r.ID := by
    rw [hpath]
    exact ParseUint_FormatUint r.ID 32 (by omega) hlt
  rw [createUser_fresh users vars r (by omega) hfresh]
  refine ⟨rfl, Finmap.lookup_insert _, ?_⟩
  simp only [GetUserById, hparse]
  rw [pathKey_eq hparse, Finmap.lookup_insert]
  rfl

/-- Claim C1 at id `2 ^ 32 = 4294967296`, whose decimal text is
`"4294967296"`: in the empty store `CreateUser` answers 201 and stores the
record under that text, and the following `GetUserById` on that text does not
answer 200 with the record: `ParseUint(idStr, 10, 32)` reports a range error
and the answer is 400 Bad Request. -/
theorem createUser_then_getUserById_at_two_pow_32 :
    FormatUint big.ID = "4294967296" ∧
    (CreateUser ∅ (createReq big)).2.status = 201 ∧
    (CreateUser ∅ (createReq big)).1.lookup "4294967296" = some big ∧
    ParseUint "4294967296" 10 32 = .error .ErrRange ∧
    (GetUserById (CreateUser ∅ (createReq big)).1 (idReq "4294967296")).2.status = 400 := by
  decide

/-- Claim C5 at id `2 ^ 32 = 4294967296`: the store that `CreateUser` leaves
after creating that id holds it, and `DeleteUser` on its decimal text answers
400 Bad Request instead of 204 and removes nothing; the following
`GetUserById` answers 400, not 404. -/
theorem deleteUser_at_two_pow_32 :
    Reachable storeBig ∧
    keyOf big.ID ∈ storeBig ∧
    (DeleteUser storeBig (idReq "4294967296")).2.status = 400 ∧
    (DeleteUser storeBig (idReq "4294967296")).1 = storeBig ∧
    (GetUserById (DeleteUser storeBig (idReq "4294967296")).1
      (idReq "4294967296")).2.status = 400 :=
  ⟨Reachable.step (.CreateUser (createReq big)) .init (by intro u h; cases h; decide),
    by decide, by decide, by decide, by decide⟩

/-! ## The scenario of the spec -/

/-- Claim C9, the scenario run on the code from the empty store.  `CreateUser`
with `alice` answers 201, and its body is the encoding of the record written
twice, not once; `EditUser` on path id 1 with the update answers 200 with the
encoding of the updated record under id 1; `GetUserById` of 99 answers 404. -/
theorem scenario_create_edit_get :
    (CreateUser ∅ (createReq alice)).2.status = 201 ∧
    (CreateUser ∅ (createReq alice)).2.body =
      "\x7b\"id\":1,\"username\":\"a\",\"password\":\"p\",\"name\":\"A\",\"address\":\"\"\x7d\n" ++
      "\x7b\"id\":1,\"username\":\"a\",\"password\":\"p\",\"name\":\"A\",\"address\":\"\"\x7d\n" ∧
    (CreateUser ∅ (createReq alice)).2.body ≠
      "\x7b\"id\":1,\"username\":\"a\",\"password\":\"p\",\"name\":\"A\",\"address\":\"\"\x7d\n" ∧
    (EditUser storeAlice ⟨[("id", "1")], .ok aliceUpdate⟩).2.status = 200 ∧
    (EditUser storeAlice ⟨[("id", "1")], .ok aliceUpdate⟩).2.body =
      "\x7b\"id\":1,\"username\":\"b\",\"password\":\"p2\",\"name\":\"B\",\"address\":\"X\"\x7d\n" ∧
    (GetUserById (EditUser storeAlice ⟨[("id", "1")], .ok aliceUpdate⟩).1
      (idReq "99")).2.status = 404 := by
  decide

end DioGoRestAPI
